import Mathlib

/-!
Verification of the form-validation orchestration in
`src/lib/superValidate.ts` of sveltekit-superforms.

JavaScript runtime values are shallowly embedded as the inductive type
`Value`. Objects are ordered association lists of string keys (JS objects
keep insertion order and have no duplicate keys on creation; the embedding
is total and does not assume key uniqueness). `undef` models the JS value
`undefined`, present so that property-absence checks and `delete` can be
expressed; `file` models a `File` instance (the only property of a file the
code consults is its identity in an `instanceof File` test).

Helper modules imported by `superValidate.ts` (`stringPath.ts`,
`traversal.ts`, `errors.ts`, `formData.ts`) are not part of the repository
snapshot under verification; where a claim depends on them they are either
modelled from the specification (marked `Modelled from the spec:`) or kept
as abstract function parameters bundled in the `Helpers` structure, so that
the theorems hold for every implementation of the absent module.
-/

inductive Value where
  | undef : Value
  | null : Value
  | bool : Bool → Value
  | num : Int → Value
  | str : String → Value
  | file : Value
  | arr : List Value → Value
  | obj : List (String × Value) → Value

/-- Truthiness of a JS value: `undefined`, `null`, `false`, `0` and the
empty string are falsy, every other value (including empty objects and
arrays) is truthy. -/
def Value.isFalsy : Value → Bool
  | .undef => true
  | .null => true
  | .bool b => !b
  | .num n => n == 0
  | .str s => s == ""
  | _ => false

/-- Test whether a value is a string. -/
def Value.isStr : Value → Bool
  | .str _ => true
  | _ => false

/-- Test whether a value is a plain object. -/
def Value.isObj : Value → Bool
  | .obj _ => true
  | _ => false

/-- Test whether a value is an object or an array (a JS container that
property access descends into). -/
def Value.isContainer : Value → Bool
  | .obj _ => true
  | .arr _ => true
  | _ => false

/-- First binding of a key in the field list of an object, as JS property
lookup does. -/
def lookupField : List (String × Value) → String → Option Value
  | [], _ => none
  | (k', v) :: rest, k => if k' = k then some v else lookupField rest k

/-- Property read `o[k]`: the bound value, or `undefined` when the key is
absent. -/
def getFieldD (fs : List (String × Value)) (k : String) : Value :=
  (lookupField fs k).getD (.undef)

/-- Property write `o[k] = v`: replaces the first binding of the key in
place, or appends a new binding, preserving insertion order as JS objects
do. -/
def setField : List (String × Value) → String → Value → List (String × Value)
  | [], k, v => [(k, v)]
  | (k', v') :: rest, k, v =>
      if k' = k then (k, v) :: rest else (k', v') :: setField rest k v

/-- Modelled from the spec: `splitPath` (from `stringPath.ts`, not in the
snapshot) splits a dotted/bracketed field path such as `tags[2].msg` into
its segments, dropping empty segments. Auxiliary recursion over the
characters, accumulating the current segment reversed. -/
def splitPathAux : List Char → List Char → List String
  | [], acc => if acc.isEmpty then [] else [String.mk acc.reverse]
  | c :: cs, acc =>
      if c = '.' || c = '[' || c = ']' then
        if acc.isEmpty then splitPathAux cs [] else String.mk acc.reverse :: splitPathAux cs []
      else splitPathAux cs (c :: acc)

/-- Modelled from the spec: segments of a dotted/bracketed path. -/
def splitPath (s : String) : List String :=
  splitPathAux s.data []

/-- Property read along a path of segments; `undefined` as soon as the
walk leaves plain objects or meets a missing key. -/
def getPath : Value → List String → Value
  | v, [] => v
  | .obj fs, k :: rest => getPath (getFieldD fs k) rest
  | _, _ => (.undef)

/-- Modelled from the spec: the traversal of `setError` (source lines
256-266 together with `traversePath` from `traversal.ts`, not in the
snapshot). Walking the error tree along the segments, an intermediate
segment whose current value is `undefined` is replaced by a fresh empty
object; at the leaf the error messages are stored as an array of strings,
concatenated onto an existing array unless `overwrite` is set, in which
case (or when the previous value was not an array) the messages replace
the previous value. A walk that leaves plain objects sets nothing, like
the guard on the leaf in the source. -/
def setPathError (errArr : List String) (overwrite : Bool) : Value → List String → Value
  | .obj fs, [k] =>
      let nv :=
        match getFieldD fs k, overwrite with
        | .arr es, false => Value.arr (es ++ errArr.map .str)
        | _, _ => Value.arr (errArr.map .str)
      .obj (setField fs k nv)
  | .obj fs, k :: k2 :: rest =>
      let child :=
        match getFieldD fs k with
        | .undef => Value.obj []
        | v => v
      .obj (setField fs k (setPathError errArr overwrite child (k2 :: rest)))
  | v, _ => v

/-- Expected value at the leaf of an error path after `setError`: the
previous array extended by the new messages, unless `overwrite` is set or
the previous value was not an array, in which case just the new
messages. -/
def expectedLeaf (old : Value) (errArr : List String) (overwrite : Bool) : Value :=
  match old, overwrite with
  | .arr es, false => Value.arr (es ++ errArr.map .str)
  | _, _ => Value.arr (errArr.map .str)

/-- Compatibility of an error tree with a path, as needed for `setError`
to reach and set the leaf: every intermediate segment finds either
`undefined` (a fresh object will be created) or a further plain object,
and the leaf segment finds a plain object whose entry, when it is already
an array, holds only strings. -/
def pathOk : Value → List String → Bool
  | .obj fs, [k] =>
      match getFieldD fs k with
      | .arr es => es.all Value.isStr
      | _ => true
  | .obj fs, k :: rest =>
      match getFieldD fs k with
      | .undef => true
      | v => pathOk v rest
  | _, _ => false

/-- Shape of an error tree along a path after the error has been set:
plain objects at every intermediate node and an array of strings at the
leaf. -/
def goodPath : Value → List String → Bool
  | .arr es, [] => es.all Value.isStr
  | .obj fs, k :: rest => goodPath (getFieldD fs k) rest
  | _, _ => false

/-!
Source lines 275-283, `removeFiles`: recursively deletes every
`File`-valued property of an object. Deleting a property of a plain object
removes the binding; `delete` on an array index leaves a hole, read back
as `undefined`. Values that are neither objects nor arrays (including
`null`, which fails the truthy-object test of the source) are
left untouched.
-/

mutual
def removeFilesV : Value → Value
  | .obj fs => .obj (removeFilesFields fs)
  | .arr es => .arr (removeFilesElems es)
  | v => v
def removeFilesFields : List (String × Value) → List (String × Value)
  | [] => []
  | (k, v) :: rest =>
      match v with
      | .file => removeFilesFields rest
      | .obj gs => (k, removeFilesV (.obj gs)) :: removeFilesFields rest
      | .arr es => (k, removeFilesV (.arr es)) :: removeFilesFields rest
      | v => (k, v) :: removeFilesFields rest
def removeFilesElems : List Value → List Value
  | [] => []
  | v :: rest =>
      match v with
      | .file => Value.undef :: removeFilesElems rest
      | .obj gs => removeFilesV (.obj gs) :: removeFilesElems rest
      | .arr es => removeFilesV (.arr es) :: removeFilesElems rest
      | v => v :: removeFilesElems rest
end

/-- Effect of `removeFiles` on a single property of the wrapper object
`(form)` it is called with: a `File` is deleted (read back as
`undefined`), containers are cleaned recursively, everything else stays. -/
def removeFilesProp : Value → Value
  | .file => (.undef)
  | .obj fs => removeFilesV (.obj fs)
  | .arr es => removeFilesV (.arr es)
  | v => v

/-- Recursive shape of a validation issue as handed back by a schema
adapter: a message at a dotted path. `mapErrors` and
`replaceInvalidDefaults` consume issues abstractly, so only the carrier
matters here. -/
structure Issue where
  message : String
  path : List String

/-- Nested key structure of a schema, `SchemaShape` from
`jsonSchema/schemaShape.ts`. The code under verification only consults
its top-level keys and passes it through to `mapErrors`. -/
inductive SchemaShape where
  | mk : List (String × SchemaShape) → SchemaShape

/-- Top-level keys of a schema shape, `Object.keys(validator.shape)`. -/
def SchemaShape.topKeys : SchemaShape → List String
  | .mk fields => fields.map Prod.fst

/-- Fragment of a JSON schema consisting of the members that
`superValidate` itself reads: the `additionalProperties` flag (`some
false` models the literal `false`; anything else is not `=== false`) and
the declared property names, `Object.keys(jsonSchema.properties)`. The
schema is also passed through to `replaceInvalidDefaults` abstractly. -/
structure Schema where
  additionalProperties : Option Bool := none
  properties : Option (List String) := none

/-- Result of the `validate` call of an adapter, the union type
`ValidationResult`: success carries the validated output, failure carries
the issue list. -/
inductive ValidationResult where
  | success : Value → ValidationResult
  | failure : List Issue → ValidationResult

def ValidationResult.isSuccess : ValidationResult → Bool
  | .success _ => true
  | .failure _ => false

/-- Issue list of a validation status; the source only reads
`status.issues` on the failure branch. -/
def ValidationResult.issues : ValidationResult → List Issue
  | .success _ => []
  | .failure is => is

/-- Validation adapter as consumed by `superValidate`: the
`validate` function, the schema defaults, the JSON schema, the schema
shape, the form id, and the constraints payload (passed through
verbatim). -/
structure Adapter where
  validate : Value → ValidationResult
  defaults : Value
  jsonSchema : Schema
  shape : SchemaShape
  id : String
  constraints : Value

/-- Options of `superValidate` (`SuperValidateOptions`), all optional. -/
structure Options where
  errors : Option Bool := none
  id : Option String := none
  preprocessed : Option (List String) := none
  defaults : Option Value := none
  strict : Option Bool := none

/-- Result of `parseRequest` from `formData.ts` (not in the snapshot): an
optional form id taken from the request, the `posted` flag, and the
parsed data when any was obtained. For falsy direct data, or when only an
adapter is given, all of id and data are absent and `posted` is false. -/
structure Parsed where
  id : Option String := none
  posted : Bool := false
  data : Option Value := none

/-- Functions imported from `errors.ts`, which is not in the snapshot:
`mapErrors` turns adapter issues into a field-path error tree and
`replaceInvalidDefaults` reconciles parsed data with the defaults along
the schema. They are kept fully abstract so every theorem below holds for
any implementation. -/
structure Helpers where
  mapErrors : List Issue → SchemaShape → Value
  replaceInvalidDefaults : Value → Value → Schema → List Issue → Option (List String) → Value

mutual
/-- Modelled from the spec: `mergeDefaults` from `errors.ts` (not in the
snapshot). Falsy parsed data yields the schema defaults (the source doc
comment: if data is falsy, the default values of the schema will be used);
otherwise the parsed data is merged over the defaults, objects deep,
arrays and every other value replaced wholesale by the parsed side. -/
def mergeDefaults : Option Value → Value → Value
  | none, defaults => defaults
  | some parsed, defaults => deepMerge defaults parsed
def deepMerge : Value → Value → Value
  | .obj fs1, .obj fs2 => .obj (mergeFields fs1 fs2)
  | _, v => v
def mergeFields : List (String × Value) → List (String × Value) → List (String × Value)
  | fs1, [] => fs1
  | fs1, (k, v) :: rest =>
      match lookupField fs1 k with
      | some v1 => mergeFields (setField fs1 k (deepMerge v1 v)) rest
      | none => mergeFields (fs1 ++ [(k, v)]) rest
end

/-- Source line 107: `options?.defaults ?? validator.defaults`. -/
def resolvedDefaults (a : Adapter) (o : Options) : Value :=
  o.defaults.getD a.defaults

/-- Truthiness of `options?.strict`. -/
def strictMode (o : Options) : Bool :=
  o.strict.getD false

/-- Source line 111: `options?.errors ?? (options?.strict ? true :
!!parsed.data)`. -/
def addErrors (p : Parsed) (o : Options) : Bool :=
  match o.errors with
  | some b => b
  | none => if strictMode o then true else p.data.isSome

/-- Source line 114: the data handed to validation; in strict mode the
parsed data alone (empty object when nothing parsed), otherwise the
parsed data merged with the defaults. -/
def parsedData (a : Adapter) (p : Parsed) (o : Options) : Value :=
  if strictMode o then p.data.getD (.obj []) else mergeDefaults p.data (resolvedDefaults a o)

/-- Source lines 116-122: the validation status; the `validate` function of the adapter
runs when data was parsed or errors were requested, otherwise the status
is a failure carrying no issues. -/
def computeStatus (a : Adapter) (p : Parsed) (o : Options) : ValidationResult :=
  if p.data.isSome || addErrors p o then a.validate (parsedData a p o) else .failure []

/-- Source line 125: the error tree of the output; empty on success or
when errors are not added, otherwise `mapErrors` on the issues and the
schema shape. -/
def errorsOut (h : Helpers) (a : Adapter) (p : Parsed) (o : Options) : Value :=
  let status := computeStatus a p o
  if status.isSuccess || !(addErrors p o) then .obj [] else h.mapErrors status.issues a.shape

/-- Source lines 129-137: the reconciled data; the validated output on
success, otherwise `replaceInvalidDefaults` on the merged data (merged
with the defaults once more first in strict mode), the defaults, the JSON
schema, the issues and the preprocessed fields. -/
def dataWithDefaults (h : Helpers) (a : Adapter) (p : Parsed) (o : Options) : Value :=
  match computeStatus a p o with
  | .success d => d
  | .failure issues =>
      h.replaceInvalidDefaults
        (if strictMode o then mergeDefaults (some (parsedData a p o)) (resolvedDefaults a o)
         else parsedData a p o)
        (resolvedDefaults a o) a.jsonSchema issues o.preprocessed

/-- Source lines 142-145: keep, in schema declaration order, exactly the
declared properties that are present (`key in dataWithDefaults`) in the
data. -/
def stripToProperties (s : Schema) (d : Value) : Value :=
  .obj ((s.properties.getD []).filterMap fun k =>
    match d with
    | .obj fs =>
        match lookupField fs k with
        | some v => some (k, v)
        | none => none
    | _ => none)

/-- Source lines 139-148: the output data, stripped to the declared
properties exactly when the schema has `additionalProperties === false`. -/
def outputData (h : Helpers) (a : Adapter) (p : Parsed) (o : Options) : Value :=
  if a.jsonSchema.additionalProperties = some false then
    stripToProperties a.jsonSchema (dataWithDefaults h a p o)
  else dataWithDefaults h a p o

/-- Source line 151: `parsed.id ?? options?.id ?? validator.id`. -/
def resolvedId (a : Adapter) (p : Parsed) (o : Options) : String :=
  match p.id with
  | some i => i
  | none =>
      match o.id with
      | some i => i
      | none => a.id

/-- Validation output `SuperValidated`: `message` is `none` and `shape`
absent unless set, modelling the optional TS members. -/
structure Form where
  id : String
  valid : Bool
  posted : Bool
  errors : Value
  data : Value
  constraints : Value
  message : Option Value := none
  shape : Option SchemaShape := none

/-- Source lines 98-164, `superValidate`, assembled from the staged
definitions above; lines 150-161 build the output object, with `shape`
set exactly when the shape of the adapter has at least one key. -/
def superValidate (h : Helpers) (a : Adapter) (p : Parsed) (o : Options) : Form :=
  { id := resolvedId a p o
    valid := (computeStatus a p o).isSuccess
    posted := p.posted
    errors := errorsOut h a p o
    data := outputData h a p o
    constraints := a.constraints
    message := none
    shape := if (SchemaShape.topKeys a.shape).length ≠ 0 then some a.shape else none }

/-- Effect of `removeFiles` on the `(form)` payload: the wrapper and the
form record are plain objects, so the recursion reaches each member of
the form; strings and booleans are untouched, object- or array- or
file-valued members are cleaned by `removeFilesProp`. The `shape` member
can hold no files and is untouched. -/
def removeFilesForm (f : Form) : Form :=
  { f with
    errors := removeFilesProp f.errors
    data := removeFilesProp f.data
    constraints := removeFilesProp f.constraints
    message := f.message.map removeFilesProp }

/-- Result of the `message` helper: either the plain object with the form
(`return (form)` on the valid branch) or an action failure
`fail(status, (form))`. -/
inductive MsgResult where
  | ok : Form → MsgResult
  | fail : Nat → Form → MsgResult

/-- Options of `message`. -/
structure MessageOptions where
  status : Option Nat := none
  removeFiles : Option Bool := none

/-- Truthy-and-at-least-400 test of `options?.status && options.status >=
400` (source line 180). -/
def statusBad (o : MessageOptions) : Bool :=
  match o.status with
  | some s => decide (400 ≤ s)
  | none => false

/-- Source lines 172-191, `message`: possibly invalidates the form, sets
the message, and returns the plain payload when the form is still valid,
otherwise a failure with the given status or 400; files are removed from
the payload unless `removeFiles` is the literal `false`. -/
def message (f : Form) (msg : Value) (o : MessageOptions) : MsgResult :=
  let f1 : Form := if statusBad o then { f with valid := false } else f
  let f2 : Form := { f1 with message := some msg }
  let remove : Bool := !(o.removeFiles == some false)
  if f2.valid then
    .ok (if remove then removeFilesForm f2 else f2)
  else
    (if remove then (fun s f => MsgResult.fail s (removeFilesForm f)) else .fail)
      (o.status.getD 400) f2

/-- Options of `setError`. -/
structure SetErrorOptions where
  overwrite : Bool := false
  status : Option Nat := none
  removeFiles : Option Bool := none

/-- Action failure `fail(status, (form))` returned by `setError`. -/
structure FailResult where
  status : Nat
  form : Form

/-- Error argument of `setError`: a single message or a list. -/
def errArrOf : String ⊕ List String → List String
  | .inl s => [s]
  | .inr l => l

/-- Source line 250: a falsy `form.errors` is replaced by an empty
object. -/
def normErrors (v : Value) : Value :=
  if v.isFalsy then .obj [] else v

/-- Source lines 252-254, the form-level branch of `setError` (empty
path): `_errors` is initialised to an empty array when falsy, then
replaced by the messages under `overwrite` and extended by them
otherwise. A truthy non-array `_errors` would make the source throw on
`.concat`; that dead branch is modelled as storing the messages. -/
def setFormLevelError (errors : Value) (errArr : List String) (overwrite : Bool) : Value :=
  match errors with
  | .obj fs =>
      let cur := getFieldD fs ("_errors")
      let cur := if cur.isFalsy then Value.arr [] else cur
      let nv :=
        match cur, overwrite with
        | .arr es, false => Value.arr (es ++ errArr.map .str)
        | _, _ => Value.arr (errArr.map .str)
      .obj (setField fs ("_errors") nv)
  | v => v

/-- Source lines 233-273, `setError` with the signatures unified (the
four-argument overload; the resolved path is a string, the empty string
meaning a form-level error): normalises the error tree, sets the error at
the split path (or at `_errors` for the empty path), invalidates the
form, and returns `fail` with the given status or 400, removing files
from the payload unless `removeFiles` is the literal `false`. -/
def setError (f : Form) (path : String) (error : String ⊕ List String) (o : SetErrorOptions) :
    FailResult :=
  let errArr := errArrOf error
  let errors0 := normErrors f.errors
  let errors1 :=
    if path = "" then setFormLevelError errors0 errArr o.overwrite
    else setPathError errArr o.overwrite errors0 (splitPath path)
  let f1 : Form := { f with errors := errors1, valid := false }
  let f2 := if o.removeFiles == some false then f1 else removeFilesForm f1
  { status := o.status.getD 400, form := f2 }

/-- Top-level key list of a value, empty for non-objects; used to state
the stripping invariant of `superValidate`. -/
def objKeys : Value → List String
  | .obj fs => fs.map Prod.fst
  | _ => []

/-- Statement-side restatement of the `message` behaviour claimed by the
specification, to be compared with the translated `message` above: the
valid flag is cleared exactly when a status of at least 400 is given, the
message is attached, the payload has files removed unless `removeFiles` is
the literal `false`, and the result is the plain payload when the form is
still valid and otherwise a failure with the given status or 400. -/
def messageSpec (f : Form) (msg : Value) (o : MessageOptions) : MsgResult :=
  let valid1 := if statusBad o then false else f.valid
  let base : Form := { f with valid := valid1, message := some msg }
  let payload := if o.removeFiles = some false then base else removeFilesForm base
  if valid1 then MsgResult.ok payload else MsgResult.fail (o.status.getD 400) payload

/-- Concrete form used by the witnesses. -/
def F1 : Form :=
  { id := ("test"), valid := true, posted := false,
    errors := Value.obj [(("tags"), Value.obj [(("2"), Value.arr [Value.str ("old")])])],
    data := Value.obj [], constraints := Value.obj [] }

/-- Concrete helper functions used by the witnesses. -/
def H0 : Helpers :=
  { mapErrors := fun is _ => Value.obj [(("count"), Value.num is.length)]
    replaceInvalidDefaults := fun d _ _ _ _ => d }

/-- Concrete validation issue used by the witnesses. -/
def I0 : Issue := { message := ("required"), path := [("a")] }

/-- Concrete adapter used by the witnesses; its `validate` always fails
with the single issue `I0`. -/
def A0 : Adapter :=
  { validate := fun _ => ValidationResult.failure [I0]
    defaults := Value.obj [(("a"), Value.num 0)]
    jsonSchema := { additionalProperties := none, properties := some [("a")] }
    shape := SchemaShape.mk [(("a"), SchemaShape.mk [])]
    id := ("form1")
    constraints := Value.obj [] }

/-- Variant of `A0` whose schema forbids additional properties. -/
def A8 : Adapter :=
  { A0 with jsonSchema := { additionalProperties := some false, properties := some [("a")] } }

/-- Parse result with no id and no data, as produced for falsy input. -/
def P0 : Parsed := {}

/-- Options requesting errors explicitly. -/
def O2 : Options := { errors := some true }

theorem lookupField_setField (fs : List (String × Value)) (k : String) (v : Value) :
    lookupField (setField fs k v) k = some v := by
  induction fs with
  | nil => simp [setField, lookupField]
  | cons hd tl ih =>
      obtain ⟨k', v'⟩ := hd
      by_cases hk : k' = k
      · subst hk; simp [setField, lookupField]
      · simp [setField, lookupField, hk, ih]

theorem getFieldD_setField (fs : List (String × Value)) (k : String) (v : Value) :
    getFieldD (setField fs k v) k = v := by
  simp [getFieldD, lookupField_setField]

theorem getPath_undef (ks : List String) : getPath Value.undef ks = Value.undef := by
  cases ks <;> rfl

theorem pathOk_nil (v : Value) : pathOk v [] = false := by
  cases v <;> rfl

theorem pathOk_objNil (k : String) (ks : List String) :
    pathOk (Value.obj []) (k :: ks) = true := by
  cases ks <;> simp [pathOk, getFieldD, lookupField]

theorem all_isStr_map (l : List String) : (l.map Value.str).all Value.isStr = true := by
  induction l with
  | nil => rfl
  | cons a t ih => simp_all [Value.isStr]

theorem getPath_nil (v : Value) : getPath v [] = v := by cases v <;> rfl

theorem getPath_cons (fs : List (String × Value)) (k : String) (rest : List String) :
    getPath (Value.obj fs) (k :: rest) = getPath (getFieldD fs k) rest := rfl

theorem goodPath_cons (fs : List (String × Value)) (k : String) (rest : List String) :
    goodPath (Value.obj fs) (k :: rest) = goodPath (getFieldD fs k) rest := rfl

theorem getPath_objNil (k : String) (ks : List String) :
    getPath (Value.obj []) (k :: ks) = Value.undef := by
  rw [getPath_cons]
  show getPath Value.undef ks = (Value.undef)
  exact getPath_undef ks

theorem pathOk_leaf (fs : List (String × Value)) (k : String) :
    pathOk (Value.obj fs) [k]
      = (match getFieldD fs k with
         | Value.arr es => es.all Value.isStr
         | _ => true) := rfl

theorem pathOk_cons2 (fs : List (String × Value)) (k k2 : String) (rest : List String) :
    pathOk (Value.obj fs) (k :: k2 :: rest)
      = (match getFieldD fs k with
         | Value.undef => true
         | v => pathOk v (k2 :: rest)) := rfl

theorem setPathError_leaf (errArr : List String) (ow : Bool) (fs : List (String × Value))
    (k : String) :
    setPathError errArr ow (Value.obj fs) [k]
      = Value.obj (setField fs k (expectedLeaf (getFieldD fs k) errArr ow)) := by
  cases hgf : getFieldD fs k <;> cases ow <;> simp [setPathError, expectedLeaf, hgf]

theorem setPathError_cons2 (errArr : List String) (ow : Bool) (fs : List (String × Value))
    (k k2 : String) (rest : List String) :
    setPathError errArr ow (Value.obj fs) (k :: k2 :: rest)
      = Value.obj (setField fs k (setPathError errArr ow
          (match getFieldD fs k with
           | Value.undef => Value.obj []
           | v => v) (k2 :: rest))) := rfl

theorem setPathError_spec (errArr : List String) (ow : Bool) :
    ∀ ks v, pathOk v ks = true →
      getPath (setPathError errArr ow v ks) ks = expectedLeaf (getPath v ks) errArr ow
      ∧ goodPath (setPathError errArr ow v ks) ks = true := by
  intro ks
  induction ks with
  | nil => intro v h; rw [pathOk_nil] at h; simp at h
  | cons k rest ih =>
      intro v h
      cases v with
      | obj fs =>
          cases rest with
          | nil =>
              rw [setPathError_leaf]
              refine ⟨?_, ?_⟩
              · rw [getPath_cons, getFieldD_setField, getPath_nil, getPath_cons, getPath_nil]
              · rw [goodPath_cons, getFieldD_setField]
                rw [pathOk_leaf] at h
                cases hgf : getFieldD fs k <;> rw [hgf] at h <;> cases ow <;>
                  simp_all [expectedLeaf, goodPath, List.all_append, all_isStr_map]
          | cons k2 rest2 =>
              rw [pathOk_cons2] at h
              rw [setPathError_cons2]
              cases hgf : getFieldD fs k with
              | undef =>
                  simp only [hgf] at h ⊢
                  have ihc := ih (Value.obj []) (pathOk_objNil k2 rest2)
                  refine ⟨?_, ?_⟩
                  · conv_rhs => rw [getPath_cons, hgf, getPath_undef]
                    rw [getPath_cons, getFieldD_setField, ihc.1, getPath_objNil]
                  · rw [goodPath_cons, getFieldD_setField]
                    exact ihc.2
              | obj gs =>
                  simp only [hgf] at h ⊢
                  have ihc := ih (Value.obj gs) h
                  refine ⟨?_, ?_⟩
                  · conv_rhs => rw [getPath_cons, hgf]
                    rw [getPath_cons, getFieldD_setField, ihc.1]
                  · rw [goodPath_cons, getFieldD_setField]
                    exact ihc.2
              | null => simp only [hgf] at h; simp [pathOk] at h
              | bool b => simp only [hgf] at h; simp [pathOk] at h
              | num n => simp only [hgf] at h; simp [pathOk] at h
              | str s => simp only [hgf] at h; simp [pathOk] at h
              | file => simp only [hgf] at h; simp [pathOk] at h
              | arr es => simp only [hgf] at h; simp [pathOk] at h
      | undef => simp [pathOk] at h
      | null => simp [pathOk] at h
      | bool b => simp [pathOk] at h
      | num n => simp [pathOk] at h
      | str s => simp [pathOk] at h
      | file => simp [pathOk] at h
      | arr es => simp [pathOk] at h

theorem goodPath_isObj (v : Value) (k : String) (rest : List String)
    (h : goodPath v (k :: rest) = true) : v.isObj = true := by
  cases v <;> first | rfl | simp [goodPath] at h

theorem goodPath_container (w : Value) (ks : List String) (h : goodPath w ks = true) :
    w.isContainer = true := by
  cases w <;> first | rfl | (cases ks <;> simp [goodPath] at h)

theorem goodPath_take :
    ∀ (ks : List String) (v : Value) (i : Nat), goodPath v ks = true → i < ks.length →
      Value.isObj (getPath v (ks.take i)) = true := by
  intro ks
  induction ks with
  | nil => intro v i h hi; simp at hi
  | cons k rest ih =>
      intro v i h hi
      have hobj := goodPath_isObj v k rest h
      cases v <;> simp [Value.isObj] at hobj
      case obj fs =>
        cases i with
        | zero => rfl
        | succ j =>
            rw [List.take_succ_cons, getPath_cons]
            refine ih (getFieldD fs k) j ?_ ?_
            · rw [goodPath_cons] at h; exact h
            · simpa using Nat.lt_of_succ_lt_succ hi

theorem removeFilesElems_allStr (es : List Value) (h : es.all Value.isStr = true) :
    removeFilesElems es = es := by
  induction es with
  | nil => rfl
  | cons v rest ih =>
      rw [List.all_cons, Bool.and_eq_true] at h
      obtain ⟨h1, h2⟩ := h
      cases v <;> simp [Value.isStr] at h1
      case str s =>
        show Value.str s :: removeFilesElems rest = Value.str s :: rest
        rw [ih h2]

theorem getFieldD_removeFilesFields (fs : List (String × Value)) (k : String)
    (hc : (getFieldD fs k).isContainer = true) :
    getFieldD (removeFilesFields fs) k = removeFilesV (getFieldD fs k) := by
  induction fs with
  | nil => simp [getFieldD, lookupField, Value.isContainer] at hc
  | cons hd tl ih =>
      obtain ⟨k', v'⟩ := hd
      by_cases hk : k' = k
      · subst hk
        have hv : getFieldD ((k', v') :: tl) k' = v' := by simp [getFieldD, lookupField]
        rw [hv] at hc ⊢
        cases v' <;> simp [Value.isContainer] at hc <;>
          simp [removeFilesFields, getFieldD, lookupField]
      · have hskip : getFieldD ((k', v') :: tl) k = getFieldD tl k := by
          simp [getFieldD, lookupField, hk]
        rw [hskip] at hc ⊢
        cases v' <;>
          simp only [removeFilesFields] <;>
          simp [getFieldD, lookupField, hk] <;>
          exact ih hc

theorem removeFilesV_path :
    ∀ (ks : List String) (v : Value), goodPath v ks = true →
      getPath (removeFilesV v) ks = getPath v ks ∧ goodPath (removeFilesV v) ks = true := by
  intro ks
  induction ks with
  | nil =>
      intro v h
      cases v with
      | arr es =>
          have h' : es.all Value.isStr = true := h
          constructor
          · show getPath (Value.arr (removeFilesElems es)) [] = getPath (Value.arr es) []
            rw [getPath_nil, getPath_nil, removeFilesElems_allStr es h']
          · show goodPath (Value.arr (removeFilesElems es)) [] = true
            rw [removeFilesElems_allStr es h']
            exact h
      | undef => simp [goodPath] at h
      | null => simp [goodPath] at h
      | bool b => simp [goodPath] at h
      | num n => simp [goodPath] at h
      | str s => simp [goodPath] at h
      | file => simp [goodPath] at h
      | obj fs => simp [goodPath] at h
  | cons k rest ih =>
      intro v h
      cases v with
      | obj fs =>
          have h' : goodPath (getFieldD fs k) rest = true := by
            rw [goodPath_cons] at h; exact h
          have hc := goodPath_container (getFieldD fs k) rest h'
          have hrf := getFieldD_removeFilesFields fs k hc
          constructor
          · show getPath (Value.obj (removeFilesFields fs)) (k :: rest) = _
            rw [getPath_cons, hrf, getPath_cons, (ih _ h').1]
          · show goodPath (Value.obj (removeFilesFields fs)) (k :: rest) = true
            rw [goodPath_cons, hrf]
            exact (ih _ h').2
      | undef => simp [goodPath] at h
      | null => simp [goodPath] at h
      | bool b => simp [goodPath] at h
      | num n => simp [goodPath] at h
      | str s => simp [goodPath] at h
      | file => simp [goodPath] at h
      | arr es => simp [goodPath] at h

theorem removeFilesProp_isObj (v : Value) (h : v.isObj = true) :
    removeFilesProp v = removeFilesV v := by
  cases v <;> first | rfl | simp [Value.isObj] at h

/-- Claim C1: for every form and every non-empty dotted/bracketed field
path (compatible with the error tree, which `setError` leaves in place
otherwise), `setError` stores the error at that path: the path is split
into segments, every intermediate segment whose value was undefined holds
a created object (every proper initial part of the path now reaches an
object), and the leaf holds the messages as an array, concatenated onto
an existing array unless `overwrite` is set, in which case the existing
array is replaced. -/
theorem setError_sets_error_at_path (f : Form) (path : String) (error : String ⊕ List String)
    (o : SetErrorOptions) (hp : path ≠ "")
    (hok : pathOk (normErrors f.errors) (splitPath path) = true) :
    getPath (setError f path error o).form.errors (splitPath path)
      = expectedLeaf (getPath (normErrors f.errors) (splitPath path)) (errArrOf error) o.overwrite
    ∧ ∀ i, i < (splitPath path).length →
        Value.isObj (getPath (setError f path error o).form.errors ((splitPath path).take i))
          = true := by
  have hB := setPathError_spec (errArrOf error) o.overwrite (splitPath path) (normErrors f.errors)
    hok
  have hne : splitPath path ≠ [] := by
    intro hnil
    rw [hnil, pathOk_nil] at hok
    simp at hok
  obtain ⟨a, t, hsp⟩ := List.exists_cons_of_ne_nil hne
  have hisobj : (setPathError (errArrOf error) o.overwrite (normErrors f.errors)
      (splitPath path)).isObj = true :=
    goodPath_isObj _ a t (hsp ▸ hB.2)
  have herr : (setError f path error o).form.errors
      = (if o.removeFiles = some false
         then setPathError (errArrOf error) o.overwrite (normErrors f.errors) (splitPath path)
         else removeFilesV (setPathError (errArrOf error) o.overwrite (normErrors f.errors)
                (splitPath path))) := by
    by_cases hr : o.removeFiles = some false
    · simp [setError, hp, hr, removeFilesForm]
    · simp [setError, hp, hr, removeFilesForm, removeFilesProp_isObj _ hisobj]
  by_cases hr : o.removeFiles = some false
  · rw [herr, if_pos hr]
    exact ⟨hB.1, fun i hi => goodPath_take _ _ i hB.2 hi⟩
  · rw [herr, if_neg hr]
    have hA := removeFilesV_path (splitPath path) _ hB.2
    exact ⟨hA.1.trans hB.1, fun i hi => goodPath_take _ _ i hA.2 hi⟩

theorem setError_sets_error_at_path_witness :
    getPath (setError F1 ("tags[2]") (Sum.inr [("new")]) {}).form.errors
        (splitPath ("tags[2]"))
      = expectedLeaf (getPath (normErrors F1.errors) (splitPath ("tags[2]")))
          (errArrOf (Sum.inr [("new")])) false :=
  (setError_sets_error_at_path F1 ("tags[2]") (Sum.inr [("new")]) {} (by decide) (by decide)).1

theorem stripToProperties_keys (s : Schema) (d : Value) (k : String)
    (hk : k ∈ objKeys (stripToProperties s d)) : k ∈ s.properties.getD [] := by
  simp only [stripToProperties, objKeys, List.mem_map, List.mem_filterMap] at hk
  obtain ⟨⟨k1, v⟩, ⟨k0, hk0, hf⟩, hfst⟩ := hk
  cases d <;> simp at hf
  case obj fs =>
    rcases hlk : lookupField fs k0 with _ | v0 <;> rw [hlk] at hf <;> simp at hf
    obtain ⟨h1, _⟩ := hf
    subst h1
    simp at hfst
    subst hfst
    exact hk0

/-- Claim C2: the validation issues are mapped onto a field-path error
tree; when validation fails and errors are to be added (per `addErrors`:
the errors option, or strict mode, or parsed data present), the errors
field of the result equals `mapErrors` applied to the issues of the
adapter and the schema shape; when validation succeeds, or when errors
are not to be added, the errors field is the empty object. -/
theorem superValidate_errors_mapped (h : Helpers) (a : Adapter) (p : Parsed) (o : Options) :
    ((computeStatus a p o).isSuccess = false → addErrors p o = true →
      (superValidate h a p o).errors = h.mapErrors (computeStatus a p o).issues a.shape)
    ∧ ((computeStatus a p o).isSuccess = true ∨ addErrors p o = false →
      (superValidate h a p o).errors = Value.obj []) := by
  constructor
  · intro hs he
    simp [superValidate, errorsOut, hs, he]
  · intro hcase
    rcases hcase with hs | he
    · simp [superValidate, errorsOut, hs]
    · simp [superValidate, errorsOut, he]

theorem superValidate_errors_mapped_witness :
    (superValidate H0 A0 P0 O2).errors
      = H0.mapErrors (computeStatus A0 P0 O2).issues A0.shape :=
  (superValidate_errors_mapped H0 A0 P0 O2).1 (by rfl) (by rfl)

/-- Claim C3: whenever validation runs, the data passed to the `validate`
function of the adapter is the parsed data merged with the defaults
(`mergeDefaults` of the parsed data and the defaults, the defaults taken
from the options if given and from the adapter otherwise) in non-strict
mode, and in strict mode the parsed data alone, or the empty object when
parsing yielded nothing, without merging defaults first. -/
theorem superValidate_validation_input (h : Helpers) (a : Adapter) (p : Parsed) (o : Options)
    (hinv : p.data.isSome = true ∨ addErrors p o = true) :
    computeStatus a p o
      = a.validate (if strictMode o then p.data.getD (Value.obj [])
                    else mergeDefaults p.data (o.defaults.getD a.defaults))
    ∧ (superValidate h a p o).valid = (a.validate (parsedData a p o)).isSuccess := by
  have hc : (p.data.isSome || addErrors p o) = true := by
    rcases hinv with h1 | h1 <;> simp [h1]
  constructor
  · rw [computeStatus, if_pos hc]
    rfl
  · show (computeStatus a p o).isSuccess = (a.validate (parsedData a p o)).isSuccess
    rw [computeStatus, if_pos hc]

theorem superValidate_validation_input_witness :
    computeStatus A0 P0 O2
      = A0.validate (if strictMode O2 then P0.data.getD (Value.obj [])
                     else mergeDefaults P0.data (O2.defaults.getD A0.defaults)) :=
  (superValidate_validation_input H0 A0 P0 O2 (Or.inr (by rfl))).1

/-- Claim C4: the differently-shaped trees are reconciled into the data
field of the result; when validation succeeds the reconciled value is
exactly the validated output of the adapter, when it fails the reconciled
value is `replaceInvalidDefaults` applied to the parsed-and-merged data
(merged with the defaults a second time first in strict mode), the
defaults, the JSON schema, the issues and the preprocessed fields; the
data field of the result is the reconciled value, stripped to the
declared properties exactly when the schema forbids additional
properties. -/
theorem superValidate_data_reconciled (h : Helpers) (a : Adapter) (p : Parsed) (o : Options) :
    (∀ d, computeStatus a p o = ValidationResult.success d → dataWithDefaults h a p o = d)
    ∧ (∀ issues, computeStatus a p o = ValidationResult.failure issues →
        dataWithDefaults h a p o
          = h.replaceInvalidDefaults
              (if strictMode o then mergeDefaults (some (parsedData a p o)) (resolvedDefaults a o)
               else parsedData a p o)
              (resolvedDefaults a o) a.jsonSchema issues o.preprocessed)
    ∧ (superValidate h a p o).data
        = (if a.jsonSchema.additionalProperties = some false
           then stripToProperties a.jsonSchema (dataWithDefaults h a p o)
           else dataWithDefaults h a p o) := by
  refine ⟨?_, ?_, rfl⟩
  · intro d hd
    rw [dataWithDefaults, hd]
  · intro issues hi
    rw [dataWithDefaults, hi]

theorem superValidate_data_reconciled_witness :
    dataWithDefaults H0 A0 P0 O2
      = H0.replaceInvalidDefaults
          (if strictMode O2 then mergeDefaults (some (parsedData A0 P0 O2)) (resolvedDefaults A0 O2)
           else parsedData A0 P0 O2)
          (resolvedDefaults A0 O2) A0.jsonSchema [I0] O2.preprocessed :=
  (superValidate_data_reconciled H0 A0 P0 O2).2.1 [I0] (by rfl)

/-- Claim C5: whenever the `validate` function of the adapter is invoked
(parsed data present, or errors requested), the valid flag of the result
equals the success flag returned by `validate` on the merged data. -/
theorem superValidate_valid_flag (h : Helpers) (a : Adapter) (p : Parsed) (o : Options)
    (hinv : p.data.isSome = true ∨ addErrors p o = true) :
    (superValidate h a p o).valid = (a.validate (parsedData a p o)).isSuccess := by
  have hc : (p.data.isSome || addErrors p o) = true := by
    rcases hinv with h1 | h1 <;> simp [h1]
  show (computeStatus a p o).isSuccess = _
  rw [computeStatus, if_pos hc]

theorem superValidate_valid_flag_witness :
    (superValidate H0 A0 P0 O2).valid = (A0.validate (parsedData A0 P0 O2)).isSuccess :=
  superValidate_valid_flag H0 A0 P0 O2 (Or.inr (by rfl))

/-- Claim C6: the result carries the fields id (resolved in order: the id
parsed from the request, then the id option, then the id of the adapter),
valid, posted, errors, data and constraints (taken verbatim from the
adapter), no message, and a shape exactly when the shape of the adapter
has at least one key. -/
theorem superValidate_output_fields (h : Helpers) (a : Adapter) (p : Parsed) (o : Options) :
    (superValidate h a p o).id = resolvedId a p o
    ∧ (∀ i, p.id = some i → (superValidate h a p o).id = i)
    ∧ (p.id = none → ∀ i, o.id = some i → (superValidate h a p o).id = i)
    ∧ (p.id = none → o.id = none → (superValidate h a p o).id = a.id)
    ∧ (superValidate h a p o).posted = p.posted
    ∧ (superValidate h a p o).constraints = a.constraints
    ∧ (superValidate h a p o).message = none
    ∧ (superValidate h a p o).shape
        = (if (SchemaShape.topKeys a.shape).length ≠ 0 then some a.shape else none)
    ∧ ((superValidate h a p o).shape = none ↔ (SchemaShape.topKeys a.shape).length = 0) := by
  refine ⟨rfl, ?_, ?_, ?_, rfl, rfl, rfl, rfl, ?_⟩
  · intro i hi
    show resolvedId a p o = i
    rw [resolvedId, hi]
  · intro hpid i hi
    show resolvedId a p o = i
    rw [resolvedId, hpid, hi]
  · intro hpid ho
    show resolvedId a p o = a.id
    rw [resolvedId, hpid, ho]
  · by_cases hk : (SchemaShape.topKeys a.shape).length = 0 <;> simp [superValidate, hk]

theorem superValidate_output_fields_witness :
    (superValidate H0 A0 P0 O2).id = A0.id :=
  (superValidate_output_fields H0 A0 P0 O2).2.2.2.1 (by rfl) (by rfl)

/-- Claim C7: `message` clears the valid flag of the form exactly when a
status is given and is at least 400; it returns the plain payload when
the form is still valid and otherwise a failure with the given status or
400; in both cases files are removed from the payload unless the
`removeFiles` option is the literal `false`. Stated as equality with the
specification-side `messageSpec`, together with the characterisation of
the status test. -/
theorem message_matches_spec (f : Form) (msg : Value) (o : MessageOptions) :
    message f msg o = messageSpec f msg o
    ∧ (statusBad o = true ↔ ∃ s, o.status = some s ∧ 400 ≤ s) := by
  constructor
  · rw [message, messageSpec]
    by_cases hb : statusBad o <;> by_cases hr : o.removeFiles = some false <;>
      simp [hb, hr]
  · rcases hs : o.status with _ | s <;> simp [statusBad, hs]

theorem message_matches_spec_witness :
    message F1 (Value.str ("hi")) {} = messageSpec F1 (Value.str ("hi")) {} :=
  (message_matches_spec F1 (Value.str ("hi")) {}).1

/-- Claim C8: when the JSON schema of the adapter has
`additionalProperties === false`, the data of the result is the
reconciled data stripped to the declared properties, so every key of the
result data is a declared property; otherwise the reconciled data is
returned unchanged. -/
theorem superValidate_strips_extra_keys (h : Helpers) (a : Adapter) (p : Parsed) (o : Options) :
    (a.jsonSchema.additionalProperties = some false →
      (superValidate h a p o).data = stripToProperties a.jsonSchema (dataWithDefaults h a p o)
      ∧ ∀ k, k ∈ objKeys (superValidate h a p o).data → k ∈ a.jsonSchema.properties.getD [])
    ∧ (a.jsonSchema.additionalProperties ≠ some false →
      (superValidate h a p o).data = dataWithDefaults h a p o) := by
  constructor
  · intro hAP
    have hout : (superValidate h a p o).data
        = stripToProperties a.jsonSchema (dataWithDefaults h a p o) := by
      show outputData h a p o = _
      rw [outputData, if_pos hAP]
    refine ⟨hout, ?_⟩
    intro k hk
    rw [hout] at hk
    exact stripToProperties_keys a.jsonSchema (dataWithDefaults h a p o) k hk
  · intro hAP
    show outputData h a p o = _
    rw [outputData, if_neg hAP]

theorem superValidate_strips_extra_keys_witness :
    (superValidate H0 A8 P0 O2).data
      = stripToProperties A8.jsonSchema (dataWithDefaults H0 A8 P0 O2) :=
  ((superValidate_strips_extra_keys H0 A8 P0 O2).1 (by rfl)).1

/-- Claim C9: with falsy data (nothing parsed), in non-strict mode and
without the errors option set to true, the `validate` function of the
adapter is never invoked (the result is the same for every `validate`
function): the status is a failure with an empty issue list, the result
is invalid with an empty error object, and the reconciled data is the
defaults reconciled by `replaceInvalidDefaults` (passed through the
additional-properties stripping of claim C8 on the way to the data
field). -/
theorem superValidate_no_validation_on_empty (h : Helpers) (a : Adapter) (p : Parsed)
    (o : Options) (hd : p.data = none) (hs : strictMode o = false) (he : o.errors ≠ some true) :
    computeStatus a p o = ValidationResult.failure []
    ∧ (superValidate h a p o).valid = false
    ∧ (superValidate h a p o).errors = Value.obj []
    ∧ dataWithDefaults h a p o
        = h.replaceInvalidDefaults (resolvedDefaults a o) (resolvedDefaults a o)
            a.jsonSchema [] o.preprocessed
    ∧ (superValidate h a p o).data
        = (if a.jsonSchema.additionalProperties = some false
           then stripToProperties a.jsonSchema
                  (h.replaceInvalidDefaults (resolvedDefaults a o) (resolvedDefaults a o)
                    a.jsonSchema [] o.preprocessed)
           else h.replaceInvalidDefaults (resolvedDefaults a o) (resolvedDefaults a o)
                  a.jsonSchema [] o.preprocessed)
    ∧ ∀ v', superValidate h { a with validate := v' } p o = superValidate h a p o := by
  have hadd : addErrors p o = false := by
    rw [addErrors]
    rcases ho : o.errors with _ | b
    · simp [hs, hd]
    · cases b
      · rfl
      · exact absurd ho he
  have hcond : (p.data.isSome || addErrors p o) = false := by simp [hd, hadd]
  have hcs : computeStatus a p o = ValidationResult.failure [] := by
    rw [computeStatus]
    simp [hcond]
  have hpd : parsedData a p o = resolvedDefaults a o := by
    rw [parsedData, if_neg (by simp [hs]), hd]
    rfl
  have hdwd : dataWithDefaults h a p o
      = h.replaceInvalidDefaults (resolvedDefaults a o) (resolvedDefaults a o)
          a.jsonSchema [] o.preprocessed := by
    rw [dataWithDefaults, hcs, if_neg (by simp [hs]), hpd]
  refine ⟨hcs, ?_, ?_, hdwd, ?_, ?_⟩
  · show (computeStatus a p o).isSuccess = false
    rw [hcs]
    rfl
  · simp [superValidate, errorsOut, hcs, hadd]
  · show outputData h a p o = _
    rw [outputData, hdwd]
  · intro v'
    have hcs' : computeStatus { a with validate := v' } p o = ValidationResult.failure [] := by
      rw [computeStatus]
      simp [hcond]
    simp [superValidate, errorsOut, dataWithDefaults, outputData, resolvedId, resolvedDefaults,
      hcs, hcs', hadd, parsedData, hs, hd]

theorem superValidate_no_validation_on_empty_witness :
    (superValidate H0 A0 P0 {}).errors = Value.obj [] :=
  (superValidate_no_validation_on_empty H0 A0 P0 {} (by rfl) (by rfl) (by decide)).2.2.1
